import Mathlib

/-!
Verification of the T-SQL to PostgreSQL conversion pipeline of `src/app.py`
(`clean_sql_input`, `validate_postgresql`, the code-fence stripping of
`groq_convert_sql`, and the orchestrator `convert_to_postgresql`).

The Python text operations are embedded over `String`/`List Char`:
`str.strip` becomes `pyStrip` (ASCII whitespace on both ends), `str.lower`
becomes `Char.toLower` mapping (the patterns involved are ASCII), and
`str.splitlines` becomes `splitlines` (splitting on the line separators
relevant to SQL text: LF, CR and CRLF).  The regular expressions of the
source are fixed and simple, so each is embedded as a dedicated matcher
over `List Char` together with the search-anywhere scan `searchAny`.
-/

/-- The backquote character, written via its code point. -/
def bq : Char := Char.ofNat 96

/-- Model of the character class matched by `\s` in Python regular
expressions and stripped by `str.strip` (ASCII whitespace). -/
def isSpace (c : Char) : Bool :=
  c = ' ' || c = '\t' || c = '\n' || c = '\r' || c = Char.ofNat 11 || c = Char.ofNat 12

/-- Model of the character class matched by `\w` (ASCII word characters). -/
def isWordChar (c : Char) : Bool :=
  c.isAlpha || c.isDigit || c = '_'

/-- Case-insensitive character comparison against a lower-case pattern
character, modelling `re.IGNORECASE` matching of ASCII literals. -/
def lowEq (c d : Char) : Bool := c.toLower == d

/-- Helper for `splitlines`: scans the characters, accumulating the current
line in reverse; LF, CR and CRLF each terminate a line, and a final
separator produces no trailing empty line (as in Python `str.splitlines`).
The boolean flag records that the previous character was a CR, so that a
following LF is consumed as part of the same CRLF separator. -/
def splitlinesAux : Bool → List Char → List Char → List String
  | _, [], acc => if acc = [] then [] else [String.mk acc.reverse]
  | afterCR, c :: rest, acc =>
    if afterCR && c = '\n' then
      splitlinesAux false rest acc
    else if c = '\r' then
      String.mk acc.reverse :: splitlinesAux true rest []
    else if c = '\n' then
      String.mk acc.reverse :: splitlinesAux false rest []
    else
      splitlinesAux false rest (c :: acc)

/-- Embedding of `sql_text.splitlines()` from `clean_sql_input`. -/
def splitlines (s : String) : List String := splitlinesAux false s.data []

/-- Embedding of Python `str.strip()` on a character list: remove leading
and trailing whitespace. -/
def pyStripList (cs : List Char) : List Char :=
  ((cs.dropWhile isSpace).reverse.dropWhile isSpace).reverse

/-- Embedding of Python `str.strip()` on strings. -/
def pyStrip (s : String) : String := String.mk (pyStripList s.data)

/-- Embedding of `line.strip().lower()` as used by `clean_sql_input`. -/
def stripLower (line : String) : List Char :=
  (pyStripList line.data).map Char.toLower

/-- Boolean list prefix test (embedding of `str.startswith`). -/
def startsWithL : List Char → List Char → Bool
  | [], _ => true
  | _ :: _, [] => false
  | p :: ps, c :: cs => p == c && startsWithL ps cs

/-- Does a stripped, lower-cased line start with one of the four literal
prefixes of the `startswith` tuple at `src/app.py:39`? -/
def isDeclStarts (t : List Char) : Bool :=
  startsWithL "create procedure".data t || startsWithL "create proc".data t ||
  startsWithL "alter procedure".data t || startsWithL "alter proc".data t

/-- A declaration line of `clean_sql_input`: its stripped, lower-cased form
starts with a declaration prefix. -/
def isDeclLine (line : String) : Bool := isDeclStarts (stripLower line)

/-- Is a stripped, lower-cased line exactly `"go"` or empty? -/
def isGoList (t : List Char) : Bool := t == "go".data || t == []

/-- The body-mode filter of `clean_sql_input` (`src/app.py:43`): the
stripped, lower-cased line is exactly `"go"` or empty. -/
def isGoOrEmpty (line : String) : Bool := isGoList (stripLower line)

/-- The line-scanning loop of `clean_sql_input` (`src/app.py:36-44`), with
the `found_create` flag made explicit. -/
def cleanLines : Bool → List String → List String
  | _, [] => []
  | false, line :: rest =>
    if isDeclLine line then line :: cleanLines true rest else cleanLines false rest
  | true, line :: rest =>
    if isGoOrEmpty line then cleanLines true rest else line :: cleanLines true rest

/-- Embedding of Python `"\n".join`. -/
def joinNl : List String → String
  | [] => ""
  | [line] => line
  | line :: rest => line ++ "\n" ++ joinNl rest

/-- Embedding of `clean_sql_input` (`src/app.py:29-46`). -/
def clean_sql_input (sql_text : String) : String :=
  joinNl (cleanLines false (splitlines sql_text))

/-- Modelled from the spec wording of §4.1 / claim C1: discard every line
before the first declaration line, keep that line, keep every subsequent
line that is not blank or `go`, and rejoin with newlines (empty when no
declaration line exists).  Used as the reference for the refinement
claim about `clean_sql_input`. -/
def clean_sql_input_spec (sql_text : String) : String :=
  match (splitlines sql_text).dropWhile (fun l => !(isDeclLine l)) with
  | [] => ""
  | d :: rest => joinNl (d :: rest.filter (fun l => !(isGoOrEmpty l)))

/-- The first line of a text: its characters up to the first newline. -/
def firstLine (s : String) : String :=
  String.mk (s.data.takeWhile fun c => c != '\n')

/-- Case-insensitive literal matcher: consumes the given lower-case pattern
characters from the front of the text and yields the remainder. -/
def matchCI : List Char → List Char → Option (List Char)
  | [], cs => some cs
  | _ :: _, [] => none
  | p :: ps, c :: cs => if lowEq c p then matchCI ps cs else none

/-- Exact literal matcher: consumes the given pattern characters from the
front of the text and yields the remainder (for pattern parts on which
`re.IGNORECASE` has no effect, such as the backquote fence). -/
def matchL : List Char → List Char → Option (List Char)
  | [], cs => some cs
  | _ :: _, [] => none
  | p :: ps, c :: cs => if p == c then matchL ps cs else none

/-- Greedy `\s+`: requires at least one whitespace character and consumes
the maximal whitespace run (the patterns of the source always follow
`\s+` with a non-whitespace literal, so maximal munch is faithful). -/
def wsPlus : List Char → Option (List Char)
  | [] => none
  | c :: rest => if isSpace c then some (rest.dropWhile isSpace) else none

/-- `re.search`-style scan: does the matcher accept at some position? -/
def searchAny (m : List Char → Bool) : List Char → Bool
  | [] => m []
  | c :: rest => m (c :: rest) || searchAny m rest

/-- Matcher for `CREATE\s+(?:OR\s+REPLACE\s+)?FUNCTION` at the current
position (`src/app.py:291`). -/
def matchCreateFunction (cs : List Char) : Bool :=
  match (matchCI "create".data cs).bind wsPlus with
  | none => false
  | some r1 =>
    let withGroup :=
      match (matchCI "or".data r1).bind wsPlus with
      | none => none
      | some r2 =>
        match (matchCI "replace".data r2).bind wsPlus with
        | none => none
        | some r3 => matchCI "function".data r3
    match withGroup with
    | some _ => true
    | none => (matchCI "function".data r1).isSome

/-- Matcher for `RETURNS\s+(?:VOID|TABLE|SETOF)` (`src/app.py:292`). -/
def matchReturns (cs : List Char) : Bool :=
  match (matchCI "returns".data cs).bind wsPlus with
  | none => false
  | some r =>
    (matchCI "void".data r).isSome || (matchCI "table".data r).isSome ||
    (matchCI "setof".data r).isSome

/-- Matcher for `LANGUAGE\s+plpgsql` (`src/app.py:293`). -/
def matchLanguage (cs : List Char) : Bool :=
  match (matchCI "language".data cs).bind wsPlus with
  | none => false
  | some r => (matchCI "plpgsql".data r).isSome

/-- Matcher for `AS\s+\$\$` (`src/app.py:294`). -/
def matchAsDollar (cs : List Char) : Bool :=
  match (matchCI "as".data cs).bind wsPlus with
  | none => false
  | some r => (matchCI "$$".data r).isSome

/-- The `$` anchor of a pattern compiled without `re.MULTILINE`: end of
text, or just before a final newline. -/
def atEnd (cs : List Char) : Bool := cs == [] || cs == ['\n']

/-- Matcher for `\$\$\s*;?\s*$` (`src/app.py:295`). -/
def matchClosing (cs : List Char) : Bool :=
  match matchCI "$$".data cs with
  | none => false
  | some r =>
    match r.dropWhile isSpace with
    | ';' :: r2 => atEnd (r2.dropWhile isSpace)
    | r1 => atEnd r1

/-- Matcher for `@\w+` (`src/app.py:304`). -/
def matchAtWord (cs : List Char) : Bool :=
  match cs with
  | '@' :: c :: _ => isWordChar c
  | _ => false

/-- Is the optional previous character a word character (for `\b`)? -/
def wordB : Option Char → Bool
  | none => false
  | some c => isWordChar c

/-- Scanner for `\bGO\b` with `re.IGNORECASE` (`src/app.py:305`): a
case-insensitive `go` with a non-word character (or text boundary) on both
sides; `prev` is the character preceding the current position. -/
def goFrom (prev : Option Char) : List Char → Bool
  | [] => false
  | c :: rest =>
    (!(wordB prev) && lowEq c 'g' &&
      (match rest with
       | d :: rest2 =>
         lowEq d 'o' &&
           (match rest2 with
            | [] => true
            | e :: _ => !(isWordChar e))
       | [] => false))
    || goFrom (some c) rest

/-- Search for `\bGO\b` anywhere in the text. -/
def searchGo (cs : List Char) : Bool := goFrom none cs

/-- Matcher for `CREATE\s+PROCEDURE` (`src/app.py:306`). -/
def matchCreateProcedure (cs : List Char) : Bool :=
  match (matchCI "create".data cs).bind wsPlus with
  | none => false
  | some r => (matchCI "procedure".data r).isSome

/-- Matcher for `SET\s+NOCOUNT` (`src/app.py:307`). -/
def matchSetNocount (cs : List Char) : Bool :=
  match (matchCI "set".data cs).bind wsPlus with
  | none => false
  | some r => (matchCI "nocount".data r).isSome

/-- Matcher for `GETDATE\(\)` (`src/app.py:308`). -/
def matchGetdate (cs : List Char) : Bool :=
  (matchCI "getdate()".data cs).isSome

/-- The `required_patterns` dict of `validate_postgresql`
(`src/app.py:290-296`), in declaration order: search function paired with
the warning message appended when the pattern is absent. -/
def required_patterns : List ((List Char → Bool) × String) :=
  [(searchAny matchCreateFunction, "Missing CREATE FUNCTION"),
   (searchAny matchReturns, "Missing RETURNS clause"),
   (searchAny matchLanguage, "Missing LANGUAGE plpgsql"),
   (searchAny matchAsDollar, "Missing AS $$ delimiter"),
   (searchAny matchClosing, "Missing closing $$")]

/-- The `remnants` dict of `validate_postgresql` (`src/app.py:303-309`),
in declaration order: search function paired with the warning message
appended when the pattern is present. -/
def remnant_patterns : List ((List Char → Bool) × String) :=
  [(searchAny matchAtWord, "Contains @ symbols (should be p_ or v_)"),
   (searchGo, "Contains GO statement"),
   (searchAny matchCreateProcedure, "Contains CREATE PROCEDURE"),
   (searchAny matchSetNocount, "Contains SET NOCOUNT"),
   (searchAny matchGetdate, "Contains GETDATE() (should be CURRENT_TIMESTAMP)")]

/-- Embedding of `validate_postgresql` (`src/app.py:286-315`): the two
checklists are folded in order, appending one message per matched
condition (absence for required patterns, presence for remnants). -/
def validate_postgresql (pg_sql : String) : List String :=
  let issues := required_patterns.foldl
    (fun acc pm => if pm.1 pg_sql.data then acc else acc ++ [pm.2]) []
  remnant_patterns.foldl
    (fun acc pm => if pm.1 pg_sql.data then acc ++ [pm.2] else acc) issues

/-- Greedy `\s*\n`: consumes the longest whitespace run that ends with a
newline (the backtracking of `\s*` followed by a mandatory `\n` lands on
the last newline of the leading whitespace run), yielding the remainder;
`none` when the leading whitespace run contains no newline. -/
def wsNl : List Char → Option (List Char)
  | [] => none
  | c :: rest =>
    if isSpace c then
      match wsNl rest with
      | some r => some r
      | none => if c = '\n' then some rest else none
    else none

/-- The substitution `re.sub(r'^```(?:sql|postgresql)?\s*\n', '', result,
flags=re.IGNORECASE)` of `src/app.py:276`: anchored at the start, so at
most one replacement; alternatives are tried as the regex engine does
(tag present before absent). When nothing matches the text is returned
unchanged. -/
def subLead (cs : List Char) : List Char :=
  match matchL "```".data cs with
  | none => cs
  | some rest =>
    match (matchCI "sql".data rest).bind wsNl with
    | some r => r
    | none =>
      match (matchCI "postgresql".data rest).bind wsNl with
      | some r => r
      | none =>
        match wsNl rest with
        | some r => r
        | none => cs

/-- Does `\n```\s*$` match at the current position, i.e. a newline, three
backquotes, and nothing but whitespace up to the end of the text? -/
def isFenceEnd (cs : List Char) : Bool :=
  match cs with
  | c0 :: c1 :: c2 :: c3 :: rest =>
    c0 == '\n' && c1 == bq && c2 == bq && c3 == bq && rest.all isSpace
  | _ => false

/-- The substitution `re.sub(r'\n```\s*$', '', result)` of
`src/app.py:277`: the match, when it exists, necessarily extends to the
end of the text, so the leftmost match position truncates the text. -/
def subTrail : List Char → List Char
  | [] => []
  | c :: rest => if isFenceEnd (c :: rest) then [] else c :: subTrail rest

/-- The post-processing of a successful completion in `groq_convert_sql`
(`src/app.py:273-278`): strip, remove a leading code-fence marker, remove
a trailing code-fence marker, strip again. -/
def stripCodeFence (content : String) : String :=
  String.mk (pyStripList (subTrail (subLead (pyStripList content.data))))

/-- Outcome of the one remote completion call: any failure (network,
auth, quota, malformed response, missing content) is `failure`; success
carries the raw returned text. -/
inductive GroqOutcome where
  | failure : GroqOutcome
  | success : String → GroqOutcome

/-- Embedding of `groq_convert_sql` (`src/app.py:48-284`) as a function of
the capability flag `USE_AI` and the outcome of the remote call: `none`
when the backend is unconfigured or the call fails (the `except` branch),
otherwise the post-processed returned text.  The prompt built from
`_sql_text` only parameterizes the remote call and does not affect the
post-processing of the returned text. -/
def groq_convert_sql (useAI : Bool) (oc : GroqOutcome) (_sql_text : String) :
    Option String :=
  if !useAI then none
  else
    match oc with
    | GroqOutcome.failure => none
    | GroqOutcome.success content => some (stripCodeFence content)

/-- The warning banner of `convert_to_postgresql` (`src/app.py:335-339`). -/
def warning_banner (issues : List String) : String :=
  "-- ⚠️  Validation Warnings:\n" ++
  String.join (issues.map fun issue => "-- • " ++ issue ++ "\n") ++
  "-- Please review carefully.\n\n"

/-- The static setup-instructions message returned when the backend is not
configured (`src/app.py:345-353`). -/
def not_configured_text : String :=
  "-- ❌ Groq AI Not Configured\n\nTo enable accurate conversion:\n1. Get free API key: https://console.groq.com\n2. Install: pip install groq  \n3. Set: export GROQ_API_KEY=\x27your-key\x27\n4. Restart application\n\nWithout AI, accurate conversion is not guaranteed."

/-- Embedding of `convert_to_postgresql` (`src/app.py:317-353`),
parameterized by the process-wide `USE_AI` flag and the outcome of the
remote call.  `if not sql_text or not sql_text.strip()` is the emptiness
test on the string and on its strip; `if result:` is Python truthiness of
`Optional[str]`: false for `None` and for the empty string. -/
def convert_to_postgresql (useAI : Bool) (oc : GroqOutcome) (sql_text : String) :
    String :=
  if sql_text == "" || pyStrip sql_text == "" then "-- Error: Empty input"
  else
    let cleaned := clean_sql_input sql_text
    if cleaned == "" then "-- Error: No CREATE PROCEDURE found"
    else if useAI then
      match groq_convert_sql useAI oc cleaned with
      | some result =>
        if result == "" then "-- ❌ AI conversion failed. Check API key and connection."
        else
          let issues := validate_postgresql result
          if issues == [] then "-- ✅ Conversion Successful & Validated\n\n" ++ result
          else warning_banner issues ++ result
      | none => "-- ❌ AI conversion failed. Check API key and connection."
    else not_configured_text

/-- Substring containment (case-sensitive), used to state spec-level
hypotheses such as "contains `CREATE OR REPLACE FUNCTION`". -/
def containsStr (s pat : String) : Bool :=
  searchAny (fun cs => startsWithL pat.data cs) s.data

/-- Suffix test (case-sensitive), used to state "ends with `$$;`". -/
def endsWithL (pat l : List Char) : Bool :=
  startsWithL pat.reverse l.reverse

/-- Spec-level description of a leading triple-backtick code-fence marker:
three backquotes, an optional `sql` or `postgresql` tag (case-insensitive,
i.e. lower-casing the tag gives the literal), and whitespace ending in the
newline that closes the marker — the language of the source pattern
`^```(?:sql|postgresql)?\s*\n`. -/
def isLeadMarker (m : List Char) : Prop :=
  ∃ tag ws,
    (tag = [] ∨ tag.map Char.toLower = "sql".data ∨
      tag.map Char.toLower = "postgresql".data) ∧
    ws.all isSpace = true ∧ ws.getLast? = some '\n' ∧
    m = "```".data ++ tag ++ ws

/-- Spec-level description of a trailing triple-backtick code-fence
marker: a final line made of three backquotes possibly followed by
whitespace — the language of the source pattern `\n```\s*$`. -/
def isTrailMarker (m : List Char) : Prop :=
  ∃ ws, ws.all isSpace = true ∧ m = '\n' :: ("```".data ++ ws)

/-- In body mode the scanning loop keeps exactly the lines that are not
blank and not `go`. -/
theorem cleanLines_true (ls : List String) :
    cleanLines true ls = ls.filter (fun l => !(isGoOrEmpty l)) := by
  induction ls with
  | nil => rfl
  | cons line rest ih =>
    by_cases h : isGoOrEmpty line = true
    · simp [cleanLines, h, List.filter_cons, ih]
    · simp only [Bool.not_eq_true] at h
      simp [cleanLines, h, List.filter_cons, ih]

/-- Before a declaration is found the scanning loop discards lines; from
the declaration line on it filters out blank and `go` lines. -/
theorem cleanLines_false (ls : List String) :
    cleanLines false ls =
      match ls.dropWhile (fun l => !(isDeclLine l)) with
      | [] => []
      | d :: rest => d :: rest.filter (fun l => !(isGoOrEmpty l)) := by
  induction ls with
  | nil => rfl
  | cons line rest ih =>
    by_cases h : isDeclLine line = true
    · simp [cleanLines, h, List.dropWhile_cons, cleanLines_true]
    · simp only [Bool.not_eq_true] at h
      simp [cleanLines, h, List.dropWhile_cons, ih]

/-- Boolean prefix test characterized as list decomposition. -/
theorem startsWithL_iff (p : List Char) : ∀ (l : List Char),
    startsWithL p l = true ↔ ∃ r, l = p ++ r := by
  induction p with
  | nil => intro l; simp [startsWithL]
  | cons a ps ih =>
    intro l
    cases l with
    | nil => simp [startsWithL]
    | cons c cs =>
      simp only [startsWithL, Bool.and_eq_true, beq_iff_eq, ih, List.cons_append,
        List.cons.injEq]
      constructor
      · rintro ⟨rfl, r, rfl⟩; exact ⟨r, rfl, rfl⟩
      · rintro ⟨r, rfl, rfl⟩; exact ⟨rfl, r, rfl⟩

/-- A line recognized as a declaration start is neither blank nor `go`. -/
theorem isDeclStarts_not_go (t : List Char) (h : isDeclStarts t = true) :
    isGoList t = false := by
  cases t with
  | nil => rw [show isDeclStarts ([] : List Char) = false from by decide] at h; cases h
  | cons c t' =>
    by_cases he : c :: t' = 'g' :: 'o' :: []
    · rw [he] at h
      rw [show isDeclStarts ('g' :: 'o' :: []) = false from by decide] at h
      cases h
    · have h2 : (c :: t' == "go".data) = false := by
        rw [beq_eq_false_iff_ne]
        simpa using he
      simp [isGoList, h2]

/-- Every line kept by the scanning loop is neither blank nor `go`
(in start mode the first kept line is the declaration line, which cannot
be blank or `go`; in body mode kept lines pass the filter). -/
theorem cleanLines_not_go : ∀ (ls : List String) (b : Bool) (l : String),
    l ∈ cleanLines b ls → isGoOrEmpty l = false := by
  intro ls
  induction ls with
  | nil => intro b l hl; simp [cleanLines] at hl
  | cons line t ih =>
    intro b l hl
    cases b with
    | false =>
      by_cases hd : isDeclLine line = true
      · simp only [cleanLines, hd, if_true, List.mem_cons] at hl
        rcases hl with rfl | hl
        · exact isDeclStarts_not_go _ hd
        · exact ih true l hl
      · simp only [Bool.not_eq_true] at hd
        simp only [cleanLines, hd, Bool.false_eq_true, if_false] at hl
        exact ih false l hl
    | true =>
      by_cases hg : isGoOrEmpty line = true
      · simp only [cleanLines, hg, if_true] at hl
        exact ih true l hl
      · simp only [Bool.not_eq_true] at hg
        simp only [cleanLines, hg, Bool.false_eq_true, if_false, List.mem_cons] at hl
        rcases hl with rfl | hl
        · exact hg
        · exact ih true l hl

/-- The kept lines are a sublist (order-preserving selection) of the
input lines. -/
theorem cleanLines_sublist : ∀ (ls : List String) (b : Bool),
    List.Sublist (cleanLines b ls) ls := by
  intro ls
  induction ls with
  | nil => intro b; simp [cleanLines]
  | cons line t ih =>
    intro b
    cases b with
    | false =>
      by_cases hd : isDeclLine line = true
      · simp only [cleanLines, hd, if_true]
        exact List.Sublist.cons₂ line (ih true)
      · simp only [Bool.not_eq_true] at hd
        simp only [cleanLines, hd, Bool.false_eq_true, if_false]
        exact List.Sublist.cons line (ih false)
    | true =>
      by_cases hg : isGoOrEmpty line = true
      · simp only [cleanLines, hg, if_true]
        exact List.Sublist.cons line (ih true)
      · simp only [Bool.not_eq_true] at hg
        simp only [cleanLines, hg, Bool.false_eq_true, if_false]
        exact List.Sublist.cons₂ line (ih true)

/-- The head of the kept lines in start mode is a declaration line. -/
theorem cleanLines_head_decl : ∀ (ls : List String) (d : String) (rest : List String),
    cleanLines false ls = d :: rest → isDeclLine d = true := by
  intro ls
  induction ls with
  | nil => intro d rest h; simp [cleanLines] at h
  | cons line t ih =>
    intro d rest h
    by_cases hd : isDeclLine line = true
    · simp only [cleanLines, hd, if_true, List.cons.injEq] at h
      rw [← h.1]; exact hd
    · simp only [Bool.not_eq_true] at hd
      simp only [cleanLines, hd, Bool.false_eq_true, if_false] at h
      exact ih d rest h

/-- Lines produced by the splitter contain no newline characters. -/
theorem splitlinesAux_no_nl : ∀ (cs : List Char) (flag : Bool) (acc : List Char),
    (∀ a ∈ acc, a ≠ '\n') →
    ∀ l ∈ splitlinesAux flag cs acc, ∀ a ∈ l.data, a ≠ '\n' := by
  intro cs
  induction cs with
  | nil =>
    intro flag acc hacc l hl a ha
    by_cases h0 : acc = []
    · simp [splitlinesAux, h0] at hl
    · simp only [splitlinesAux, h0, if_false] at hl
      simp only [List.mem_singleton] at hl
      subst hl
      simp only [List.mem_reverse] at ha
      · exact hacc a ha
  | cons c rest ih =>
    intro flag acc hacc l hl a ha
    simp only [splitlinesAux] at hl
    split at hl
    · exact ih false acc hacc l hl a ha
    · split at hl
      · rcases List.mem_cons.1 hl with rfl | hl
        · simp only [List.mem_reverse] at ha
          exact hacc a ha
        · exact ih true [] (by simp) l hl a ha
      · split at hl
        · rcases List.mem_cons.1 hl with rfl | hl
          · simp only [List.mem_reverse] at ha
            exact hacc a ha
          · exact ih false [] (by simp) l hl a ha
        · rename_i hno
          refine ih false (c :: acc) ?_ l hl a ha
          intro b hb
          rcases List.mem_cons.1 hb with rfl | hb
          · exact hno
          · exact hacc b hb

/-- Lines of the input text contain no newline characters. -/
theorem splitlines_no_nl (s : String) :
    ∀ l ∈ splitlines s, ∀ a ∈ l.data, a ≠ '\n' :=
  splitlinesAux_no_nl s.data false [] (by simp)

/-- `takeWhile` passes over a block of characters all satisfying the
predicate. -/
theorem takeWhile_all (p : Char → Bool) (l r : List Char)
    (h : ∀ a ∈ l, p a = true) :
    (l ++ r).takeWhile p = l ++ r.takeWhile p := by
  induction l with
  | nil => simp
  | cons a t ih =>
    have ha : p a = true := h a (List.mem_cons_self a t)
    simp only [List.cons_append, List.takeWhile_cons, ha, if_true]
    rw [ih fun b hb => h b (List.mem_cons_of_mem a hb)]

/-- The first line of a newline-join starting with a newline-free line is
that line. -/
theorem firstLine_joinNl (d : String) (rest : List String)
    (hd : ∀ a ∈ d.data, a ≠ '\n') : firstLine (joinNl (d :: rest)) = d := by
  have hp : ∀ a ∈ d.data, (a != '\n') = true := by
    intro a ha
    simpa using hd a ha
  cases rest with
  | nil =>
    show String.mk (d.data.takeWhile fun c => c != '\n') = d
    have := takeWhile_all (fun c => c != '\n') d.data [] hp
    simp only [List.append_nil, List.takeWhile_nil] at this
    rw [this]
  | cons e t =>
    show String.mk ((d ++ "\n" ++ joinNl (e :: t)).data.takeWhile fun c => c != '\n') = d
    rw [String.data_append, String.data_append]
    rw [List.append_assoc]
    rw [takeWhile_all _ _ _ hp]
    have : (("\n".data ++ (joinNl (e :: t)).data).takeWhile fun c => c != '\n') = [] := by
      simp [List.takeWhile_cons, show ("\n".data : List Char) = ['\n'] from rfl]
    rw [this, List.append_nil]

/-- C1: `clean_sql_input` discards every line before the first declaration
line, keeps that line, then keeps every subsequent line whose trimmed,
lower-cased content is not exactly `go` or empty, and joins the kept lines
with newlines in original order (empty string when no declaration line
exists) — i.e. it coincides with the direct spec-level description
`clean_sql_input_spec`. -/
theorem normalize_refines_spec (s : String) :
    clean_sql_input s = clean_sql_input_spec s := by
  unfold clean_sql_input clean_sql_input_spec
  rw [cleanLines_false]
  cases (splitlines s).dropWhile (fun l => !(isDeclLine l)) with
  | nil => rfl
  | cons d rest => rfl

/-- C7: the output of the normalizer is either the empty string or a text
whose first line is a declaration line. -/
theorem normalize_first_line_decl (s : String) :
    clean_sql_input s = "" ∨ isDeclLine (firstLine (clean_sql_input s)) = true := by
  unfold clean_sql_input
  cases h : cleanLines false (splitlines s) with
  | nil => exact Or.inl rfl
  | cons d rest =>
    refine Or.inr ?_
    have hdecl : isDeclLine d = true := cleanLines_head_decl _ _ _ h
    have hmem : d ∈ splitlines s := by
      have : d ∈ cleanLines false (splitlines s) := by
        rw [h]; exact List.mem_cons_self d rest
      exact (cleanLines_sublist (splitlines s) false).subset this
    have hnl : ∀ a ∈ d.data, a ≠ '\n' := splitlines_no_nl s d hmem
    rw [firstLine_joinNl d rest hnl]
    exact hdecl

/-- C8: every line retained by the normalizer is neither blank nor
(case-insensitively, after trimming) `go`, and the retained lines are a
sublist — an order-preserving subsequence — of the input's lines. -/
theorem normalize_retained_lines (s : String) :
    (∀ l ∈ cleanLines false (splitlines s), isGoOrEmpty l = false) ∧
    List.Sublist (cleanLines false (splitlines s)) (splitlines s) :=
  ⟨fun l hl => cleanLines_not_go (splitlines s) false l hl,
   cleanLines_sublist (splitlines s) false⟩

/-- With no declaration line anywhere, the scanning loop keeps nothing. -/
theorem cleanLines_false_nil (ls : List String)
    (h : ∀ l ∈ ls, isDeclLine l = false) : cleanLines false ls = [] := by
  induction ls with
  | nil => rfl
  | cons line t ih =>
    have hline : isDeclLine line = false := h line (List.mem_cons_self line t)
    simp only [cleanLines, hline, Bool.false_eq_true, if_false]
    exact ih fun l hl => h l (List.mem_cons_of_mem line hl)

/-- C5: on a non-whitespace-only input none of whose lines is a
declaration line, the normalizer returns the empty string and the
orchestrator returns exactly the NoDeclarationFound sentinel, independent
of the backend flag and of the translator outcome (so neither the
translator nor the validator can influence the result). -/
theorem no_declaration_sentinel (s : String)
    (h1 : pyStrip s ≠ "")
    (h2 : ∀ l ∈ splitlines s, isDeclLine l = false) :
    clean_sql_input s = "" ∧
    ∀ (useAI : Bool) (oc : GroqOutcome),
      convert_to_postgresql useAI oc s = "-- Error: No CREATE PROCEDURE found" := by
  have hclean : clean_sql_input s = "" := by
    unfold clean_sql_input
    rw [cleanLines_false_nil (splitlines s) h2]
    rfl
  refine ⟨hclean, fun useAI oc => ?_⟩
  have hs : s ≠ "" := by
    intro he
    exact h1 (by rw [he]; rfl)
  have hc0 : (s == "" || pyStrip s == "") = false := by
    simp only [Bool.or_eq_false_iff, beq_eq_false_iff_ne, ne_eq]
    exact ⟨hs, h1⟩
  simp only [convert_to_postgresql, hc0, Bool.false_eq_true, if_false, hclean]
  rfl

/-- The required-pattern fold threads its accumulator by appending. -/
theorem foldl_missing_acc (cs : List Char) :
    ∀ (l : List ((List Char → Bool) × String)) (acc : List String),
      l.foldl (fun acc pm => if pm.1 cs then acc else acc ++ [pm.2]) acc
        = acc ++ l.foldl (fun acc pm => if pm.1 cs then acc else acc ++ [pm.2]) [] := by
  intro l
  induction l with
  | nil => intro acc; simp
  | cons pm t ih =>
    intro acc
    simp only [List.foldl_cons]
    rw [ih, ih (if pm.1 cs = true then [] else [] ++ [pm.2])]
    by_cases h : pm.1 cs = true <;> simp [h]

/-- One step of the required-pattern fold. -/
theorem foldl_missing_cons (cs : List Char) (pm : (List Char → Bool) × String)
    (l : List ((List Char → Bool) × String)) :
    (pm :: l).foldl (fun acc q => if q.1 cs then acc else acc ++ [q.2]) []
      = (if pm.1 cs then [] else [pm.2]) ++
        l.foldl (fun acc q => if q.1 cs then acc else acc ++ [q.2]) [] := by
  simp only [List.foldl_cons]
  rw [foldl_missing_acc]
  by_cases h : pm.1 cs = true <;> simp [h]

/-- The remnant-pattern fold threads its accumulator by appending. -/
theorem foldl_contains_acc (cs : List Char) :
    ∀ (l : List ((List Char → Bool) × String)) (acc : List String),
      l.foldl (fun acc pm => if pm.1 cs then acc ++ [pm.2] else acc) acc
        = acc ++ l.foldl (fun acc pm => if pm.1 cs then acc ++ [pm.2] else acc) [] := by
  intro l
  induction l with
  | nil => intro acc; simp
  | cons pm t ih =>
    intro acc
    simp only [List.foldl_cons]
    rw [ih, ih (if pm.1 cs = true then [] ++ [pm.2] else [])]
    by_cases h : pm.1 cs = true <;> simp [h]

/-- One step of the remnant-pattern fold. -/
theorem foldl_contains_cons (cs : List Char) (pm : (List Char → Bool) × String)
    (l : List ((List Char → Bool) × String)) :
    (pm :: l).foldl (fun acc q => if q.1 cs then acc ++ [q.2] else acc) []
      = (if pm.1 cs then [pm.2] else []) ++
        l.foldl (fun acc q => if q.1 cs then acc ++ [q.2] else acc) [] := by
  simp only [List.foldl_cons]
  rw [foldl_contains_acc]
  by_cases h : pm.1 cs = true <;> simp [h]

/-- The validator report, spelled out: one fixed message per checklist
entry, required-present checks first in declaration order, then
forbidden-residue checks in declaration order. -/
theorem validate_postgresql_eq (s : String) :
    validate_postgresql s =
      (if searchAny matchCreateFunction s.data then [] else ["Missing CREATE FUNCTION"]) ++
      (if searchAny matchReturns s.data then [] else ["Missing RETURNS clause"]) ++
      (if searchAny matchLanguage s.data then [] else ["Missing LANGUAGE plpgsql"]) ++
      (if searchAny matchAsDollar s.data then [] else ["Missing AS $$ delimiter"]) ++
      (if searchAny matchClosing s.data then [] else ["Missing closing $$"]) ++
      (if searchAny matchAtWord s.data then ["Contains @ symbols (should be p_ or v_)"] else []) ++
      (if searchGo s.data then ["Contains GO statement"] else []) ++
      (if searchAny matchCreateProcedure s.data then ["Contains CREATE PROCEDURE"] else []) ++
      (if searchAny matchSetNocount s.data then ["Contains SET NOCOUNT"] else []) ++
      (if searchAny matchGetdate s.data then ["Contains GETDATE() (should be CURRENT_TIMESTAMP)"] else []) := by
  simp only [validate_postgresql, required_patterns, remnant_patterns]
  rw [foldl_contains_acc]
  simp only [foldl_missing_cons, foldl_contains_cons, List.foldl_nil,
    List.append_nil, List.append_assoc]

/-- C2: the validator report is exactly the concatenation, in checklist
declaration order, of one fixed message per matched condition: the five
required-present patterns contribute their message when absent, then the
five forbidden-residue patterns contribute their message when present. -/
theorem validate_report_order (s : String) :
    validate_postgresql s =
      (if searchAny matchCreateFunction s.data then [] else ["Missing CREATE FUNCTION"]) ++
      (if searchAny matchReturns s.data then [] else ["Missing RETURNS clause"]) ++
      (if searchAny matchLanguage s.data then [] else ["Missing LANGUAGE plpgsql"]) ++
      (if searchAny matchAsDollar s.data then [] else ["Missing AS $$ delimiter"]) ++
      (if searchAny matchClosing s.data then [] else ["Missing closing $$"]) ++
      (if searchAny matchAtWord s.data then ["Contains @ symbols (should be p_ or v_)"] else []) ++
      (if searchGo s.data then ["Contains GO statement"] else []) ++
      (if searchAny matchCreateProcedure s.data then ["Contains CREATE PROCEDURE"] else []) ++
      (if searchAny matchSetNocount s.data then ["Contains SET NOCOUNT"] else []) ++
      (if searchAny matchGetdate s.data then ["Contains GETDATE() (should be CURRENT_TIMESTAMP)"] else []) :=
  validate_postgresql_eq s

/-- Exhaustive case analysis of the orchestrator: every run lands in one
of the two input sentinels, the two backend sentinels, or a banner
prepended to a non-empty translation result. -/
theorem convert_cases (useAI : Bool) (oc : GroqOutcome) (s : String) :
    convert_to_postgresql useAI oc s = "-- Error: Empty input" ∨
    convert_to_postgresql useAI oc s = "-- Error: No CREATE PROCEDURE found" ∨
    convert_to_postgresql useAI oc s = not_configured_text ∨
    convert_to_postgresql useAI oc s = "-- ❌ AI conversion failed. Check API key and connection." ∨
    (∃ r, groq_convert_sql useAI oc (clean_sql_input s) = some r ∧ r ≠ "" ∧
      ((validate_postgresql r ≠ [] ∧
        convert_to_postgresql useAI oc s = warning_banner (validate_postgresql r) ++ r) ∨
       (validate_postgresql r = [] ∧
        convert_to_postgresql useAI oc s =
          "-- ✅ Conversion Successful & Validated\n\n" ++ r))) := by
  simp only [convert_to_postgresql]
  split
  · exact Or.inl rfl
  · split
    · exact Or.inr (Or.inl rfl)
    · split
      · rename_i huse
        split
        · rename_i result hgroq
          split
          · exact Or.inr (Or.inr (Or.inr (Or.inl rfl)))
          · rename_i hne
            refine Or.inr (Or.inr (Or.inr (Or.inr ⟨result, hgroq, ?_, ?_⟩)))
            · intro he
              exact hne (by rw [he]; rfl)
            · split
              · rename_i hval
                exact Or.inr ⟨by simpa using hval, rfl⟩
              · rename_i hval
                refine Or.inl ⟨?_, rfl⟩
                intro he
                exact hval (by rw [he]; rfl)
        · exact Or.inr (Or.inr (Or.inr (Or.inl rfl)))
      · exact Or.inr (Or.inr (Or.inl rfl))

/-- C4: the orchestrator is a total function on all inputs and all
translator outcomes (including a failed remote call): every branch
returns a text, and each failure is one of the fixed textual sentinels
embedded in the returned value. -/
theorem convert_total_sentinels (useAI : Bool) (oc : GroqOutcome) (s : String) :
    convert_to_postgresql useAI oc s = "-- Error: Empty input" ∨
    convert_to_postgresql useAI oc s = "-- Error: No CREATE PROCEDURE found" ∨
    convert_to_postgresql useAI oc s = not_configured_text ∨
    convert_to_postgresql useAI oc s = "-- ❌ AI conversion failed. Check API key and connection." ∨
    (∃ r, groq_convert_sql useAI oc (clean_sql_input s) = some r ∧ r ≠ "" ∧
      ((validate_postgresql r ≠ [] ∧
        convert_to_postgresql useAI oc s = warning_banner (validate_postgresql r) ++ r) ∨
       (validate_postgresql r = [] ∧
        convert_to_postgresql useAI oc s =
          "-- ✅ Conversion Successful & Validated\n\n" ++ r))) :=
  convert_cases useAI oc s

/-- A prefix of a list is a prefix of any right extension of it. -/
theorem startsWithL_append (p l r : List Char) (h : startsWithL p l = true) :
    startsWithL p (l ++ r) = true := by
  obtain ⟨r0, rfl⟩ := (startsWithL_iff p l).1 h
  exact (startsWithL_iff p _).2 ⟨r0 ++ r, by simp⟩

/-- C10: whatever the input and the translator outcome, the orchestrator's
result begins with the two characters `--`, so the status text always
opens a SQL line comment. -/
theorem convert_starts_with_comment (useAI : Bool) (oc : GroqOutcome) (s : String) :
    startsWithL "--".data (convert_to_postgresql useAI oc s).data = true := by
  rcases convert_cases useAI oc s with h | h | h | h | ⟨r, _, _, hc⟩
  · rw [h]; decide
  · rw [h]; decide
  · rw [h]; decide
  · rw [h]; decide
  · rcases hc with ⟨_, h⟩ | ⟨_, h⟩
    · rw [h, String.data_append]
      unfold warning_banner
      rw [String.data_append, String.data_append, List.append_assoc, List.append_assoc]
      exact startsWithL_append _ _ _ (by decide)
    · rw [h, String.data_append]
      exact startsWithL_append _ _ _ (by decide)

/-- C9: when the backend is configured and the remote call succeeds but
the returned text strips to the empty string, the orchestrator returns
the BackendCallFailed sentinel — not a banner-plus-output result, so the
validator never contributes to it. -/
theorem empty_translation_fails (s content : String)
    (h1 : pyStrip s ≠ "")
    (h2 : clean_sql_input s ≠ "")
    (h3 : stripCodeFence content = "") :
    convert_to_postgresql true (GroqOutcome.success content) s =
      "-- ❌ AI conversion failed. Check API key and connection." := by
  have hs : s ≠ "" := by
    intro he
    exact h1 (by rw [he]; rfl)
  have hc0 : (s == "" || pyStrip s == "") = false := by
    simp only [Bool.or_eq_false_iff, beq_eq_false_iff_ne, ne_eq]
    exact ⟨hs, h1⟩
  have hc1 : (clean_sql_input s == "") = false := beq_eq_false_iff_ne.2 h2
  simp only [convert_to_postgresql, hc0, Bool.false_eq_true, if_false, hc1, if_true]
  show (if (stripCodeFence content == "") = true then _ else _) = _
  rw [h3]
  rfl

/-- A matcher accepting at some position makes the scan succeed. -/
theorem searchAny_of_suffix (m : List Char → Bool) (l1 l2 : List Char)
    (h : m l2 = true) : searchAny m (l1 ++ l2) = true := by
  induction l1 with
  | nil =>
    cases l2 with
    | nil => simpa [searchAny] using h
    | cons c r => simp [searchAny, h]
  | cons c t ih => simp [searchAny, ih]

/-- A successful scan yields a position where the matcher accepts. -/
theorem searchAny_split (m : List Char → Bool) :
    ∀ l, searchAny m l = true → ∃ l1 l2, l = l1 ++ l2 ∧ m l2 = true := by
  intro l
  induction l with
  | nil => intro h; exact ⟨[], [], rfl, h⟩
  | cons c t ih =>
    intro h
    simp only [searchAny, Bool.or_eq_true] at h
    rcases h with h | h
    · exact ⟨[], c :: t, rfl, h⟩
    · obtain ⟨l1, l2, rfl, hm⟩ := ih h
      exact ⟨c :: l1, l2, rfl, hm⟩

/-- Containment of a literal on which a matcher always fires implies a
successful scan. -/
theorem search_of_contains (s pat : String) (m : List Char → Bool)
    (hpat : ∀ r, m (pat.data ++ r) = true)
    (h : containsStr s pat = true) : searchAny m s.data = true := by
  obtain ⟨l1, l2, hsplit, hstart⟩ := searchAny_split _ _ h
  obtain ⟨r, rfl⟩ := (startsWithL_iff _ _).1 hstart
  rw [hsplit]
  exact searchAny_of_suffix m l1 _ (hpat r)

/-- The suffix test decomposes the list. -/
theorem endsWithL_elim (pat l : List Char) (h : endsWithL pat l = true) :
    ∃ l1, l = l1 ++ pat := by
  unfold endsWithL at h
  obtain ⟨r, hr⟩ := (startsWithL_iff _ _).1 h
  refine ⟨r.reverse, ?_⟩
  have := congrArg List.reverse hr
  simpa using this

/-- C6: a candidate containing `CREATE OR REPLACE FUNCTION`, a
`RETURNS TABLE(` clause, `LANGUAGE plpgsql` and `AS $$`, ending with
`$$;`, and free of all five forbidden-residue patterns, gets an empty
validation report. -/
theorem validator_empty_report (s : String)
    (h1 : containsStr s "CREATE OR REPLACE FUNCTION" = true)
    (h2 : containsStr s "RETURNS TABLE(" = true)
    (h3 : containsStr s "LANGUAGE plpgsql" = true)
    (h4 : containsStr s "AS $$" = true)
    (h5 : endsWithL "$$;".data s.data = true)
    (h6 : searchAny matchAtWord s.data = false)
    (h7 : searchGo s.data = false)
    (h8 : searchAny matchCreateProcedure s.data = false)
    (h9 : searchAny matchSetNocount s.data = false)
    (h10 : searchAny matchGetdate s.data = false) :
    validate_postgresql s = [] := by
  have t1 : searchAny matchCreateFunction s.data = true :=
    search_of_contains s "CREATE OR REPLACE FUNCTION" _ (fun r => rfl) h1
  have t2 : searchAny matchReturns s.data = true :=
    search_of_contains s "RETURNS TABLE(" _ (fun r => rfl) h2
  have t3 : searchAny matchLanguage s.data = true :=
    search_of_contains s "LANGUAGE plpgsql" _ (fun r => rfl) h3
  have t4 : searchAny matchAsDollar s.data = true :=
    search_of_contains s "AS $$" _ (fun r => rfl) h4
  have t5 : searchAny matchClosing s.data = true := by
    obtain ⟨l1, hl⟩ := endsWithL_elim _ _ h5
    rw [hl]
    exact searchAny_of_suffix _ l1 _ (by decide)
  rw [validate_postgresql_eq, t1, t2, t3, t4, t5, h6, h7, h8, h9, h10]
  rfl

/-- `dropWhile` is the identity when the head (if any) fails the
predicate. -/
theorem dropWhile_id (l : List Char)
    (hh : ∀ c, l.head? = some c → isSpace c = false) :
    l.dropWhile isSpace = l := by
  cases l with
  | nil => rfl
  | cons c t =>
    have := hh c rfl
    simp [List.dropWhile_cons, this]

/-- Stripping is the identity on a list whose first and last characters
are not whitespace. -/
theorem pyStripList_id (l : List Char)
    (hh : ∀ c, l.head? = some c → isSpace c = false)
    (hl : ∀ c, l.getLast? = some c → isSpace c = false) :
    pyStripList l = l := by
  unfold pyStripList
  rw [dropWhile_id l hh]
  rw [dropWhile_id l.reverse (by intro c hc; rw [List.head?_reverse] at hc; exact hl c hc)]
  exact List.reverse_reverse l

/-- `dropWhile` never lengthens a list. -/
theorem dropWhile_length_le (p : Char → Bool) :
    ∀ (l : List Char), (l.dropWhile p).length ≤ l.length := by
  intro l
  induction l with
  | nil => simp
  | cons c t ih =>
    rw [List.dropWhile_cons]
    by_cases h : p c = true
    · simp only [h, if_true]
      exact Nat.le_succ_of_le ih
    · simp [h]

/-- A list fixed by stripping has a non-whitespace head. -/
theorem head_not_space (l : List Char) (h : pyStripList l = l) :
    ∀ c t, l = c :: t → isSpace c = false := by
  intro c t hl
  by_contra hsp
  simp only [Bool.not_eq_false] at hsp
  have hstep : (c :: t).dropWhile isSpace = t.dropWhile isSpace := by
    rw [List.dropWhile_cons, hsp]
    simp
  have hlen : (pyStripList l).length ≤ t.length := by
    unfold pyStripList
    rw [hl, hstep]
    calc ((t.dropWhile isSpace).reverse.dropWhile isSpace).reverse.length
        = ((t.dropWhile isSpace).reverse.dropWhile isSpace).length := List.length_reverse _
      _ ≤ (t.dropWhile isSpace).reverse.length := dropWhile_length_le _ _
      _ = (t.dropWhile isSpace).length := List.length_reverse _
      _ ≤ t.length := dropWhile_length_le _ _
  rw [h, hl] at hlen
  simp at hlen

/-- Greedy `\s*\n` run out of a single newline followed by a
non-whitespace character: consume exactly the newline. -/
theorem wsNl_single (c : Char) (t rest : List Char) (hc : isSpace c = false) :
    wsNl ('\n' :: ((c :: t) ++ rest)) = some ((c :: t) ++ rest) := by
  have h1 : wsNl ((c :: t) ++ rest) = none := by
    simp [wsNl, hc]
  show (match wsNl ((c :: t) ++ rest) with
        | some r => some r
        | none => some ((c :: t) ++ rest)) = some ((c :: t) ++ rest)
  rw [h1]

/-- A candidate trailing-fence position strictly before the final fence
has a non-whitespace backquote in its tail, so the matcher rejects it. -/
theorem isFenceEnd_mid_false (u : List Char) (hu : 4 ≤ u.length) :
    isFenceEnd (u ++ [bq]) = false := by
  match u, hu with
  | c0 :: c1 :: c2 :: c3 :: u', _ =>
    show (c0 == '\n' && c1 == bq && c2 == bq && c3 == bq && (u' ++ [bq]).all isSpace) = false
    have : (u' ++ [bq]).all isSpace = false := by
      rw [List.all_append]
      simp [show isSpace bq = false from by decide]
    simp [this]

/-- The trailing-fence substitution removes exactly the final
newline-fence, whatever the body contains. -/
theorem subTrail_fence : ∀ (l : List Char),
    subTrail (l ++ ('\n' :: [bq, bq, bq])) = l := by
  intro l
  induction l with
  | nil =>
    show subTrail ('\n' :: [bq, bq, bq]) = []
    have : isFenceEnd ('\n' :: [bq, bq, bq]) = true := by decide
    simp [subTrail, this]
  | cons a l' ih =>
    have hfe : isFenceEnd (a :: (l' ++ ('\n' :: [bq, bq, bq]))) = false := by
      have hrw : a :: (l' ++ ('\n' :: [bq, bq, bq]))
          = (a :: (l' ++ ('\n' :: [bq, bq]))) ++ [bq] := by simp
      rw [hrw]
      apply isFenceEnd_mid_false
      simp only [List.length_cons, List.length_append]
      omega
    calc subTrail ((a :: l') ++ ('\n' :: [bq, bq, bq]))
        = if isFenceEnd (a :: (l' ++ ('\n' :: [bq, bq, bq]))) = true then []
          else a :: subTrail (l' ++ ('\n' :: [bq, bq, bq])) := rfl
      _ = a :: subTrail (l' ++ ('\n' :: [bq, bq, bq])) := by rw [hfe]; simp
      _ = a :: l' := by rw [ih]

/-- The leading-fence substitution on a `sql`-tagged fence. -/
theorem subLead_sql (X : List Char) (hX : wsNl ('\n' :: X) = some X) :
    subLead (bq :: bq :: bq :: 's' :: 'q' :: 'l' :: '\n' :: X) = X := by
  show (match wsNl ('\n' :: X) with
        | some r => r
        | none =>
          match (matchCI "postgresql".data ('s' :: 'q' :: 'l' :: '\n' :: X)).bind wsNl with
          | some r => r
          | none =>
            match wsNl ('s' :: 'q' :: 'l' :: '\n' :: X) with
            | some r => r
            | none => bq :: bq :: bq :: 's' :: 'q' :: 'l' :: '\n' :: X) = X
  rw [hX]

/-- The leading-fence substitution on an upper-case `SQL`-tagged fence
(the tag match is case-insensitive). -/
theorem subLead_sql_upper (X : List Char) (hX : wsNl ('\n' :: X) = some X) :
    subLead (bq :: bq :: bq :: 'S' :: 'Q' :: 'L' :: '\n' :: X) = X := by
  show (match wsNl ('\n' :: X) with
        | some r => r
        | none =>
          match (matchCI "postgresql".data ('S' :: 'Q' :: 'L' :: '\n' :: X)).bind wsNl with
          | some r => r
          | none =>
            match wsNl ('S' :: 'Q' :: 'L' :: '\n' :: X) with
            | some r => r
            | none => bq :: bq :: bq :: 'S' :: 'Q' :: 'L' :: '\n' :: X) = X
  rw [hX]

/-- The leading-fence substitution on a `postgresql`-tagged fence. -/
theorem subLead_postgresql (X : List Char) (hX : wsNl ('\n' :: X) = some X) :
    subLead (bq :: bq :: bq :: 'p' :: 'o' :: 's' :: 't' :: 'g' :: 'r' :: 'e' :: 's' :: 'q' :: 'l' :: '\n' :: X) = X := by
  show (match wsNl ('\n' :: X) with
        | some r => r
        | none =>
          match wsNl ('p' :: 'o' :: 's' :: 't' :: 'g' :: 'r' :: 'e' :: 's' :: 'q' :: 'l' :: '\n' :: X) with
          | some r => r
          | none => bq :: bq :: bq :: 'p' :: 'o' :: 's' :: 't' :: 'g' :: 'r' :: 'e' :: 's' :: 'q' :: 'l' :: '\n' :: X) = X
  rw [hX]

/-- The leading-fence substitution on an untagged fence. -/
theorem subLead_plain (X : List Char) (hX : wsNl ('\n' :: X) = some X) :
    subLead (bq :: bq :: bq :: '\n' :: X) = X := by
  show (match wsNl ('\n' :: X) with
        | some r => r
        | none => bq :: bq :: bq :: '\n' :: X) = X
  rw [hX]

/-- Assembly of the fence-stripping pipeline on a fenced body: once the
outer strip is the identity and the leading fence is removed, the
trailing fence is removed and the final strip is the identity on the
already-stripped body. -/
theorem stripCodeFence_fenced (lead : List Char) (body : String)
    (h2 : pyStripList body.data = body.data)
    (hstrip : pyStripList (lead ++ (body.data ++ ('\n' :: [bq, bq, bq])))
      = lead ++ (body.data ++ ('\n' :: [bq, bq, bq])))
    (hsub : subLead (lead ++ (body.data ++ ('\n' :: [bq, bq, bq])))
      = body.data ++ ('\n' :: [bq, bq, bq])) :
    String.mk (pyStripList (subTrail (subLead (pyStripList
      (lead ++ (body.data ++ ('\n' :: [bq, bq, bq]))))))) = body := by
  rw [hstrip, hsub, subTrail_fence body.data, h2]

/-- The outer strip is the identity on a fenced text: it starts with a
backquote and ends with a backquote. -/
theorem pyStrip_id_fence (lead : List Char) (body : String)
    (hhead : lead.head? = some bq) :
    pyStripList (lead ++ (body.data ++ ('\n' :: [bq, bq, bq])))
      = lead ++ (body.data ++ ('\n' :: [bq, bq, bq])) := by
  apply pyStripList_id
  · intro c hc
    rw [List.head?_append, hhead, Option.or_some] at hc
    injection hc with h
    rw [← h]
    decide
  · intro c hc
    rw [List.getLast?_append, List.getLast?_append] at hc
    rw [show (('\n' : Char) :: [bq, bq, bq]).getLast? = some bq from rfl] at hc
    rw [Option.or_some, Option.or_some] at hc
    injection hc with h
    rw [← h]
    decide

/-- Concrete canonical instances of the fence stripping: for a body
already free of surrounding whitespace, each tagged or untagged fenced
wrapping strips back to exactly the body. -/
theorem stripCodeFence_canonical (body : String)
    (h1 : body.data ≠ [])
    (h2 : pyStripList body.data = body.data) :
    stripCodeFence ("```sql\n" ++ body ++ "\n```") = body ∧
    stripCodeFence ("```SQL\n" ++ body ++ "\n```") = body ∧
    stripCodeFence ("```postgresql\n" ++ body ++ "\n```") = body ∧
    stripCodeFence ("```\n" ++ body ++ "\n```") = body ∧
    groq_convert_sql true (GroqOutcome.success ("```sql\n" ++ body ++ "\n```")) body
      = some body := by
  obtain ⟨c, t, hb⟩ : ∃ c t, body.data = c :: t := by
    cases hbd : body.data with
    | nil => exact absurd hbd h1
    | cons c t => exact ⟨c, t, rfl⟩
  have hc : isSpace c = false := head_not_space body.data h2 c t hb
  have hw : wsNl ('\n' :: (body.data ++ ('\n' :: [bq, bq, bq])))
      = some (body.data ++ ('\n' :: [bq, bq, bq])) := by
    rw [hb]
    exact wsNl_single c t _ hc
  have case_sql : stripCodeFence ("```sql\n" ++ body ++ "\n```") = body := by
    unfold stripCodeFence
    rw [show ("```sql\n" ++ body ++ "\n```").data
        = "```sql\n".data ++ (body.data ++ ('\n' :: [bq, bq, bq])) from rfl]
    exact stripCodeFence_fenced "```sql\n".data body h2
      (pyStrip_id_fence _ body rfl) (subLead_sql _ hw)
  have case_sql_upper : stripCodeFence ("```SQL\n" ++ body ++ "\n```") = body := by
    unfold stripCodeFence
    rw [show ("```SQL\n" ++ body ++ "\n```").data
        = "```SQL\n".data ++ (body.data ++ ('\n' :: [bq, bq, bq])) from rfl]
    exact stripCodeFence_fenced "```SQL\n".data body h2
      (pyStrip_id_fence _ body rfl) (subLead_sql_upper _ hw)
  have case_pg : stripCodeFence ("```postgresql\n" ++ body ++ "\n```") = body := by
    unfold stripCodeFence
    rw [show ("```postgresql\n" ++ body ++ "\n```").data
        = "```postgresql\n".data ++ (body.data ++ ('\n' :: [bq, bq, bq])) from rfl]
    exact stripCodeFence_fenced "```postgresql\n".data body h2
      (pyStrip_id_fence _ body rfl) (subLead_postgresql _ hw)
  have case_plain : stripCodeFence ("```\n" ++ body ++ "\n```") = body := by
    unfold stripCodeFence
    rw [show ("```\n" ++ body ++ "\n```").data
        = "```\n".data ++ (body.data ++ ('\n' :: [bq, bq, bq])) from rfl]
    exact stripCodeFence_fenced "```\n".data body h2
      (pyStrip_id_fence _ body rfl) (subLead_plain _ hw)
  refine ⟨case_sql, case_sql_upper, case_pg, case_plain, ?_⟩
  show some (stripCodeFence ("```sql\n" ++ body ++ "\n```")) = some body
  rw [case_sql]

/-- The exact literal matcher succeeds precisely by peeling the literal. -/
theorem matchL_decomp (lit : List Char) : ∀ (cs r : List Char),
    matchL lit cs = some r → cs = lit ++ r := by
  induction lit with
  | nil =>
    intro cs r h
    simpa [matchL] using h
  | cons p ps ih =>
    intro cs r h
    cases cs with
    | nil => simp [matchL] at h
    | cons c cs' =>
      simp only [matchL] at h
      by_cases hpc : (p == c) = true
      · rw [if_pos hpc] at h
        have := ih cs' r h
        rw [this, List.cons_append]
        rw [beq_iff_eq] at hpc
        rw [hpc]
      · rw [if_neg hpc] at h
        simp at h

/-- The case-insensitive matcher succeeds by peeling a prefix whose
lower-casing is the literal. -/
theorem matchCI_decomp (lit : List Char) : ∀ (cs r : List Char),
    matchCI lit cs = some r → ∃ pre, cs = pre ++ r ∧ pre.map Char.toLower = lit := by
  induction lit with
  | nil =>
    intro cs r h
    exact ⟨[], by simpa [matchCI] using h, rfl⟩
  | cons p ps ih =>
    intro cs r h
    cases cs with
    | nil => simp [matchCI] at h
    | cons c cs' =>
      simp only [matchCI] at h
      by_cases hpc : lowEq c p = true
      · rw [if_pos hpc] at h
        obtain ⟨pre, hsplit, hmap⟩ := ih cs' r h
        refine ⟨c :: pre, ?_, ?_⟩
        · rw [List.cons_append, hsplit]
        · simp only [List.map_cons, hmap]
          unfold lowEq at hpc
          rw [beq_iff_eq] at hpc
          rw [hpc]
      · rw [if_neg hpc] at h
        simp at h

/-- The case-insensitive matcher fires on any text starting with a
prefix that lower-cases to the literal. -/
theorem matchCI_of_map : ∀ (pre : List Char) (lit r : List Char),
    pre.map Char.toLower = lit → matchCI lit (pre ++ r) = some r := by
  intro pre
  induction pre with
  | nil =>
    intro lit r h
    rw [← h]
    rfl
  | cons c pre' ih =>
    intro lit r h
    rw [← h]
    simp only [List.map_cons, List.cons_append, matchCI]
    have hle : lowEq c c.toLower = true := by
      unfold lowEq
      exact beq_self_eq_true _
    rw [if_pos hle]
    exact ih _ r rfl

/-- What the greedy `\s*\n` consumes is whitespace ending in a newline. -/
theorem wsNl_decomp : ∀ (x r : List Char), wsNl x = some r →
    ∃ w, x = w ++ r ∧ w.all isSpace = true ∧ w.getLast? = some '\n' := by
  intro x
  induction x with
  | nil => intro r h; simp [wsNl] at h
  | cons c rest ih =>
    intro r h
    simp only [wsNl] at h
    by_cases hc : isSpace c = true
    · rw [if_pos hc] at h
      cases hr : wsNl rest with
      | some r' =>
        rw [hr] at h
        injection h with h
        obtain ⟨w', hsplit, hall, hlast⟩ := ih r' hr
        refine ⟨c :: w', ?_, ?_, ?_⟩
        · rw [List.cons_append, hsplit, h]
        · simp [List.all_cons, hc, hall]
        · cases w' with
          | nil => simp at hlast
          | cons d w'' => rw [List.getLast?_cons_cons]; exact hlast
      | none =>
        rw [hr] at h
        by_cases hnl : c = '\n'
        · rw [hnl] at h ⊢
          simp only [if_pos rfl] at h
          injection h with h
          exact ⟨['\n'], by rw [h]; rfl, by decide, rfl⟩
        · rw [if_neg hnl] at h
          simp at h
    · rw [if_neg hc] at h
      simp at h

/-- The greedy `\s*\n` fires on any text starting with whitespace that
ends in a newline. -/
theorem wsNl_append_isSome : ∀ (ws r : List Char),
    ws.all isSpace = true → ws.getLast? = some '\n' →
    (wsNl (ws ++ r)).isSome = true := by
  intro ws
  induction ws with
  | nil => intro r _ hlast; simp at hlast
  | cons c ws' ih =>
    intro r hall hlast
    have hc : isSpace c = true := by
      simp only [List.all_cons, Bool.and_eq_true] at hall
      exact hall.1
    cases ws' with
    | nil =>
      have hcnl : c = '\n' := by
        have h1 : ([c] : List Char).getLast? = some c := rfl
        rw [h1] at hlast
        exact Option.some.inj hlast
      subst hcnl
      show (wsNl ('\n' :: ([] ++ r))).isSome = true
      simp only [wsNl, show isSpace '\n' = true from by decide, if_true]
      cases hr : wsNl ([] ++ r) with
      | some r' => simp
      | none => simp
    | cons d ws'' =>
      have hall' : (d :: ws'').all isSpace = true := by
        simp only [List.all_cons, Bool.and_eq_true] at hall
        simp [List.all_cons, hall.2.1, hall.2.2]
      have hlast' : (d :: ws'').getLast? = some '\n' := by
        rw [List.getLast?_cons_cons] at hlast
        exact hlast
      have := ih r hall' hlast'
      obtain ⟨r', hr'⟩ := Option.isSome_iff_exists.1 this
      show (wsNl (c :: ((d :: ws'') ++ r))).isSome = true
      rw [show wsNl (c :: ((d :: ws'') ++ r))
          = if isSpace c = true then
              (match wsNl ((d :: ws'') ++ r) with
               | some r2 => some r2
               | none => if c = '\n' then some ((d :: ws'') ++ r) else none)
            else none from rfl]
      rw [if_pos hc, hr']
      rfl

/-- Case analysis of the leading-fence substitution: it either leaves the
text unchanged or removes exactly one leading code-fence marker. -/
theorem subLead_eq_cases (cs r : List Char) (h : subLead cs = r) :
    r = cs ∨ ∃ lead, isLeadMarker lead ∧ lead ≠ [] ∧ cs = lead ++ r := by
  unfold subLead at h
  split at h
  · exact Or.inl h.symm
  · rename_i rest hfence
    split at h
    · rename_i r0 hsql
      right
      obtain ⟨mid, hm, hw⟩ := Option.bind_eq_some.1 hsql
      obtain ⟨tag, hrest, htag⟩ := matchCI_decomp _ _ _ hm
      obtain ⟨w, hmid, hall, hlast⟩ := wsNl_decomp _ _ hw
      have hcs : cs = "```".data ++ rest := matchL_decomp _ _ _ hfence
      refine ⟨"```".data ++ tag ++ w,
        ⟨tag, w, Or.inr (Or.inl htag), hall, hlast, rfl⟩, ?_, ?_⟩
      · rw [show ("```".data ++ tag ++ w : List Char)
            = bq :: bq :: bq :: (tag ++ w) from rfl]
        exact List.cons_ne_nil _ _
      · rw [hcs, hrest, hmid, ← h]
        simp [List.append_assoc]
    · split at h
      · rename_i r0 hpg
        right
        obtain ⟨mid, hm, hw⟩ := Option.bind_eq_some.1 hpg
        obtain ⟨tag, hrest, htag⟩ := matchCI_decomp _ _ _ hm
        obtain ⟨w, hmid, hall, hlast⟩ := wsNl_decomp _ _ hw
        have hcs : cs = "```".data ++ rest := matchL_decomp _ _ _ hfence
        refine ⟨"```".data ++ tag ++ w,
          ⟨tag, w, Or.inr (Or.inr htag), hall, hlast, rfl⟩, ?_, ?_⟩
        · rw [show ("```".data ++ tag ++ w : List Char)
              = bq :: bq :: bq :: (tag ++ w) from rfl]
          exact List.cons_ne_nil _ _
        · rw [hcs, hrest, hmid, ← h]
          simp [List.append_assoc]
      · split at h
        · rename_i r0 hpl
          right
          obtain ⟨w, hrest, hall, hlast⟩ := wsNl_decomp _ _ hpl
          have hcs : cs = "```".data ++ rest := matchL_decomp _ _ _ hfence
          refine ⟨"```".data ++ ([] : List Char) ++ w,
            ⟨[], w, Or.inl rfl, hall, hlast, rfl⟩, ?_, ?_⟩
          · rw [show ("```".data ++ ([] : List Char) ++ w : List Char)
                = bq :: bq :: bq :: w from rfl]
            exact List.cons_ne_nil _ _
          · rw [hcs, hrest, ← h]
            simp [List.append_assoc]
        · exact Or.inl h.symm

/-- The leading-fence substitution either fixes the text or splits off a
leading marker. -/
theorem subLead_spec (cs : List Char) :
    subLead cs = cs ∨
    ∃ lead, isLeadMarker lead ∧ lead ≠ [] ∧ cs = lead ++ subLead cs :=
  subLead_eq_cases cs (subLead cs) rfl

/-- Completeness of the leading-fence substitution: when the text starts
with a code-fence marker, the substitution does strip something. -/
theorem subLead_strips (cs m rest : List Char) (hmark : isLeadMarker m)
    (hcs : cs = m ++ rest) : subLead cs ≠ cs := by
  obtain ⟨tag, ws, htag, hall, hlast, hmdef⟩ := hmark
  subst hmdef
  subst hcs
  intro he
  unfold subLead at he
  split at he
  · rename_i hfence
    have h1 : matchL "```".data (("```".data ++ tag ++ ws) ++ rest)
        = some ((tag ++ ws) ++ rest) := rfl
    rw [h1] at hfence
    exact Option.noConfusion hfence
  · rename_i rest0 hfence
    have h1 : (some ((tag ++ ws) ++ rest) : Option (List Char)) = some rest0 := hfence
    have hrest0 : rest0 = (tag ++ ws) ++ rest := (Option.some.inj h1).symm
    subst hrest0
    have hcs2 : ("```".data ++ tag ++ ws) ++ rest = "```".data ++ ((tag ++ ws) ++ rest) :=
      matchL_decomp _ _ _ hfence
    have hfl : ("```".data : List Char).length = 3 := rfl
    split at he
    · rename_i r0 hsql
      obtain ⟨mid, hm, hw⟩ := Option.bind_eq_some.1 hsql
      obtain ⟨pre, hrest2, _⟩ := matchCI_decomp _ _ _ hm
      obtain ⟨w, hmid, _, hwlast⟩ := wsNl_decomp _ _ hw
      have hwne : 0 < w.length := by
        cases w with
        | nil => simp at hwlast
        | cons a b => simp
      have hle := congrArg List.length he
      have hle2 := congrArg List.length hcs2
      have hle3 := congrArg List.length hrest2
      have hle4 := congrArg List.length hmid
      simp only [List.length_append, hfl] at hle hle2 hle3 hle4
      omega
    · rename_i hsqlno
      split at he
      · rename_i r0 hpg
        obtain ⟨mid, hm, hw⟩ := Option.bind_eq_some.1 hpg
        obtain ⟨pre, hrest2, _⟩ := matchCI_decomp _ _ _ hm
        obtain ⟨w, hmid, _, hwlast⟩ := wsNl_decomp _ _ hw
        have hwne : 0 < w.length := by
          cases w with
          | nil => simp at hwlast
          | cons a b => simp
        have hle := congrArg List.length he
        have hle2 := congrArg List.length hcs2
        have hle3 := congrArg List.length hrest2
        have hle4 := congrArg List.length hmid
        simp only [List.length_append, hfl] at hle hle2 hle3 hle4
        omega
      · rename_i hpgno
        split at he
        · rename_i r0 hpl
          obtain ⟨w, hrest2, _, hwlast⟩ := wsNl_decomp _ _ hpl
          have hwne : 0 < w.length := by
            cases w with
            | nil => simp at hwlast
            | cons a b => simp
          have hle := congrArg List.length he
          have hle2 := congrArg List.length hcs2
          have hle3 := congrArg List.length hrest2
          simp only [List.length_append, hfl] at hle hle2 hle3
          omega
        · rename_i hplno
          rcases htag with h0 | h0 | h0
          · subst h0
            have h2 : wsNl (ws ++ rest) = none := hplno
            have h3 := wsNl_append_isSome ws rest hall hlast
            rw [h2] at h3
            simp at h3
          · have h4 : (tag ++ ws) ++ rest = tag ++ (ws ++ rest) :=
              List.append_assoc _ _ _
            rw [h4] at hsqlno
            rw [matchCI_of_map tag _ (ws ++ rest) h0] at hsqlno
            have h2 : wsNl (ws ++ rest) = none := hsqlno
            have h3 := wsNl_append_isSome ws rest hall hlast
            rw [h2] at h3
            simp at h3
          · have h4 : (tag ++ ws) ++ rest = tag ++ (ws ++ rest) :=
              List.append_assoc _ _ _
            rw [h4] at hpgno
            rw [matchCI_of_map tag _ (ws ++ rest) h0] at hpgno
            have h2 : wsNl (ws ++ rest) = none := hpgno
            have h3 := wsNl_append_isSome ws rest hall hlast
            rw [h2] at h3
            simp at h3

/-- The trailing-fence substitution either fixes the text or removes
exactly one trailing code-fence marker. -/
theorem subTrail_spec : ∀ (u : List Char),
    subTrail u = u ∨
    ∃ trail, isTrailMarker trail ∧ trail ≠ [] ∧ u = subTrail u ++ trail := by
  intro u
  induction u with
  | nil => exact Or.inl rfl
  | cons c rest ih =>
    by_cases hf : isFenceEnd (c :: rest) = true
    · right
      cases rest with
      | nil => simp [isFenceEnd] at hf
      | cons c1 rest1 =>
        cases rest1 with
        | nil => simp [isFenceEnd] at hf
        | cons c2 rest2 =>
          cases rest2 with
          | nil => simp [isFenceEnd] at hf
          | cons c3 ws =>
            have hf2 := hf
            simp only [isFenceEnd, Bool.and_eq_true, beq_iff_eq] at hf2
            obtain ⟨⟨⟨⟨h1, h2⟩, h3⟩, h4⟩, h5⟩ := hf2
            subst h1; subst h2; subst h3; subst h4
            refine ⟨'\n' :: ("```".data ++ ws), ⟨ws, h5, rfl⟩,
              List.cons_ne_nil _ _, ?_⟩
            have hs : subTrail ('\n' :: bq :: bq :: bq :: ws) = [] := by
              rw [show subTrail ('\n' :: bq :: bq :: bq :: ws)
                  = if isFenceEnd ('\n' :: bq :: bq :: bq :: ws) = true then []
                    else '\n' :: subTrail (bq :: bq :: bq :: ws) from rfl,
                if_pos hf]
            rw [hs, List.nil_append]
            rfl
    · have hstep : subTrail (c :: rest) = c :: subTrail rest := by
        rw [show subTrail (c :: rest)
            = if isFenceEnd (c :: rest) = true then [] else c :: subTrail rest from rfl,
          if_neg hf]
      rcases ih with h | ⟨trail, htm, hne, hrest⟩
      · left
        rw [hstep, h]
      · right
        refine ⟨trail, htm, hne, ?_⟩
        rw [hstep, List.cons_append, ← hrest]

/-- The trailing-fence substitution cuts no later than any position where
the end-pattern matches. -/
theorem subTrail_le : ∀ (p v : List Char), isFenceEnd v = true →
    (subTrail (p ++ v)).length ≤ p.length := by
  intro p
  induction p with
  | nil =>
    intro v hv
    cases v with
    | nil => simp [isFenceEnd] at hv
    | cons c rest =>
      rw [List.nil_append,
        show subTrail (c :: rest)
          = if isFenceEnd (c :: rest) = true then [] else c :: subTrail rest from rfl,
        if_pos hv]
  | cons a p' ih =>
    intro v hv
    show (subTrail (a :: (p' ++ v))).length ≤ p'.length + 1
    by_cases hf : isFenceEnd (a :: (p' ++ v)) = true
    · rw [show subTrail (a :: (p' ++ v))
          = if isFenceEnd (a :: (p' ++ v)) = true then []
            else a :: subTrail (p' ++ v) from rfl,
        if_pos hf]
      simp
    · rw [show subTrail (a :: (p' ++ v))
          = if isFenceEnd (a :: (p' ++ v)) = true then []
            else a :: subTrail (p' ++ v) from rfl,
        if_neg hf]
      have := ih v hv
      simp only [List.length_cons]
      omega

/-- Completeness of the trailing-fence substitution: when the text ends
with a code-fence marker, the substitution does strip something. -/
theorem subTrail_strips (u p m : List Char) (hm : isTrailMarker m)
    (hu : u = p ++ m) : subTrail u ≠ u := by
  obtain ⟨ws, hall, hmdef⟩ := hm
  subst hmdef
  subst hu
  have hfe : isFenceEnd ('\n' :: ("```".data ++ ws)) = true := by
    show isFenceEnd ('\n' :: bq :: bq :: bq :: ws) = true
    simp [isFenceEnd, hall]
  intro he
  have hlen := subTrail_le p _ hfe
  rw [he] at hlen
  simp only [List.length_append, List.length_cons] at hlen
  omega

/-- The head of a `dropWhile` result fails the predicate. -/
theorem dropWhile_head_false (p : Char → Bool) : ∀ (l : List Char) (c : Char),
    (l.dropWhile p).head? = some c → p c = false := by
  intro l
  induction l with
  | nil => intro c h; simp at h
  | cons a t ih =>
    intro c h
    rw [List.dropWhile_cons] at h
    by_cases ha : p a = true
    · rw [if_pos ha] at h
      exact ih c h
    · rw [if_neg ha] at h
      have h2 : some a = some c := h
      rw [← Option.some.inj h2]
      simpa using ha

/-- `dropWhile` keeps the last element (or empties the list). -/
theorem dropWhile_getLast (p : Char → Bool) : ∀ (l : List Char),
    l.dropWhile p = [] ∨ (l.dropWhile p).getLast? = l.getLast? := by
  intro l
  induction l with
  | nil => exact Or.inl rfl
  | cons a t ih =>
    by_cases ha : p a = true
    · rw [List.dropWhile_cons, if_pos ha]
      cases t with
      | nil => exact Or.inl rfl
      | cons b t' =>
        rcases ih with h | h
        · exact Or.inl h
        · right
          rw [h, List.getLast?_cons_cons]
    · rw [List.dropWhile_cons, if_neg ha]
      exact Or.inr rfl

/-- The first character of a stripped text is not whitespace. -/
theorem pyStripList_head_not_space (l : List Char) :
    ∀ c, (pyStripList l).head? = some c → isSpace c = false := by
  intro c hc
  unfold pyStripList at hc
  rw [List.head?_reverse] at hc
  rcases dropWhile_getLast isSpace (l.dropWhile isSpace).reverse with h | h
  · rw [h] at hc
    simp at hc
  · rw [h, List.getLast?_reverse] at hc
    exact dropWhile_head_false isSpace l c hc

/-- The last character of a stripped text is not whitespace. -/
theorem pyStripList_getLast_not_space (l : List Char) :
    ∀ c, (pyStripList l).getLast? = some c → isSpace c = false := by
  intro c hc
  unfold pyStripList at hc
  rw [List.getLast?_reverse] at hc
  exact dropWhile_head_false isSpace _ c hc

/-- Stripping is idempotent. -/
theorem pyStripList_idem (l : List Char) :
    pyStripList (pyStripList l) = pyStripList l :=
  pyStripList_id _ (pyStripList_head_not_space l) (pyStripList_getLast_not_space l)

/-- C3: for every text the remote call returns, the translator's result is
that text with any leading code-fence marker and any trailing code-fence
marker stripped and surrounding whitespace trimmed.  Precisely: the
trimmed returned text decomposes as `lead ++ mid ++ trail` where `lead`
is a leading fence marker exactly when one is present (and empty
otherwise), `trail` is a trailing fence marker exactly when one is
present in what remains (and empty otherwise), and `groq_convert_sql`
returns exactly the trim of `mid`; moreover the returned result carries
no surrounding whitespace. -/
theorem translator_strips_fences (content sql_text : String) :
    groq_convert_sql true (GroqOutcome.success content) sql_text
      = some (stripCodeFence content) ∧
    pyStrip (stripCodeFence content) = stripCodeFence content ∧
    ∃ lead mid trail,
      pyStripList content.data = lead ++ (mid ++ trail) ∧
      (lead = [] ∨ isLeadMarker lead) ∧
      ((∃ m rest, pyStripList content.data = m ++ rest ∧ isLeadMarker m) →
        isLeadMarker lead) ∧
      (trail = [] ∨ isTrailMarker trail) ∧
      ((∃ p m, mid ++ trail = p ++ m ∧ isTrailMarker m) → isTrailMarker trail) ∧
      stripCodeFence content = String.mk (pyStripList mid) := by
  refine ⟨rfl, ?_, ?_⟩
  · show String.mk (pyStripList (String.mk (pyStripList
      (subTrail (subLead (pyStripList content.data))))).data) = stripCodeFence content
    rw [show (String.mk (pyStripList (subTrail (subLead (pyStripList content.data))))).data
        = pyStripList (subTrail (subLead (pyStripList content.data))) from rfl]
    rw [pyStripList_idem]
    rfl
  · rcases subLead_spec (pyStripList content.data) with hL |
      ⟨lead, hLmark, _, hLsplit⟩
    · rcases subTrail_spec (subLead (pyStripList content.data)) with hT |
        ⟨trail, hTmark, _, hTsplit⟩
      · refine ⟨[], pyStripList content.data, [], by simp, Or.inl rfl, ?_, Or.inl rfl, ?_, ?_⟩
        · rintro ⟨m, rest, hmr, hmark⟩
          exact absurd hL (subLead_strips _ m rest hmark hmr)
        · rintro ⟨p, m, hpm, htm⟩
          rw [List.append_nil] at hpm
          rw [hL] at hT
          exact absurd hT (subTrail_strips _ p m htm hpm)
        · show String.mk (pyStripList (subTrail (subLead (pyStripList content.data)))) = _
          rw [hT, hL]
      · refine ⟨[], subTrail (subLead (pyStripList content.data)), trail, ?_,
          Or.inl rfl, ?_, Or.inr hTmark, fun _ => hTmark, rfl⟩
        · rw [List.nil_append, ← hTsplit, hL]
        · rintro ⟨m, rest, hmr, hmark⟩
          exact absurd hL (subLead_strips _ m rest hmark hmr)
    · rcases subTrail_spec (subLead (pyStripList content.data)) with hT |
        ⟨trail, hTmark, _, hTsplit⟩
      · refine ⟨lead, subLead (pyStripList content.data), [], ?_,
          Or.inr hLmark, fun _ => hLmark, Or.inl rfl, ?_, ?_⟩
        · rw [List.append_nil]
          exact hLsplit
        · rintro ⟨p, m, hpm, htm⟩
          rw [List.append_nil] at hpm
          exact absurd hT (subTrail_strips _ p m htm hpm)
        · show String.mk (pyStripList (subTrail (subLead (pyStripList content.data)))) = _
          rw [hT]
      · refine ⟨lead, subTrail (subLead (pyStripList content.data)), trail, ?_,
          Or.inr hLmark, fun _ => hLmark, Or.inr hTmark, fun _ => hTmark, rfl⟩
        rw [← hTsplit]
        exact hLsplit

set_option maxRecDepth 4000 in
/-- Witness for C3 at a concrete fenced returned text. -/
theorem translator_strips_fences_witness :
    groq_convert_sql true (GroqOutcome.success "```sql\nSELECT 1;\n```") "x"
      = some "SELECT 1;" := by
  rw [(translator_strips_fences "```sql\nSELECT 1;\n```" "x").1]
  decide

/-- Witness for C5 at the concrete input `SELECT 1`. -/
theorem no_declaration_sentinel_witness :
    convert_to_postgresql true GroqOutcome.failure "SELECT 1"
      = "-- Error: No CREATE PROCEDURE found" :=
  (no_declaration_sentinel "SELECT 1" (by decide) (by decide)).2 true GroqOutcome.failure

set_option maxRecDepth 8000 in
/-- Witness for C6 at a concrete well-formed PostgreSQL function text. -/
theorem validator_empty_report_witness :
    validate_postgresql "CREATE OR REPLACE FUNCTION f()\nRETURNS TABLE(i INTEGER)\nLANGUAGE plpgsql\nAS $$\nBEGIN\nEND;\n$$;" = [] :=
  validator_empty_report
    "CREATE OR REPLACE FUNCTION f()\nRETURNS TABLE(i INTEGER)\nLANGUAGE plpgsql\nAS $$\nBEGIN\nEND;\n$$;"
    (by decide) (by decide) (by decide) (by decide) (by decide)
    (by decide) (by decide) (by decide) (by decide) (by decide)

/-- Witness for C9: a configured backend whose call succeeds with text
stripping to empty yields the failure sentinel. -/
theorem empty_translation_fails_witness :
    convert_to_postgresql true (GroqOutcome.success "") "CREATE PROCEDURE p AS"
      = "-- ❌ AI conversion failed. Check API key and connection." :=
  empty_translation_fails "CREATE PROCEDURE p AS" "" (by decide) (by decide) (by decide)

